import Mathlib

/-!
Verification of the reveal.js auto-fragment plugin (`src/plugin.js`).

The development shallowly embeds the plugin's logic:
* a DOM-like document `Dom`: each element is identified by a `Nat` id and
  carries a node name, a class list, an attribute list, an optional parent
  and an ordered list of children;
* JavaScript numbers restricted to the integer/NaN fragment actually used
  by the plugin (`JsNum := Option Int`, `none` playing NaN);
* the plugin's functions `addFragment`, `getOptionsFromAttr`,
  `getContentElements`, `processSlide` and the `init` pass, translated
  line by line from the source.  The two `while` loops that walk the DOM
  (the `initRelative` ancestor walk and the singleton descent) are given
  an explicit fuel parameter because an arbitrary `Dom` value may contain
  parent/child cycles that a real DOM tree cannot; running out of fuel is
  reported (`none` / `WalkResult.outOfFuel`) and theorems that need the
  loop to finish assume enough fuel, which on an acyclic document always
  exists.
-/

namespace AutoFragment

/-- JavaScript numbers as used by the plugin: an integer or NaN (`none`). -/
abbrev JsNum := Option Int

/-- Addition; NaN propagates, as in JavaScript. -/
def jsAdd : JsNum → JsNum → JsNum
  | some a, some b => some (a + b)
  | _, _ => none

/-- Multiplication; NaN propagates, as in JavaScript. -/
def jsMul : JsNum → JsNum → JsNum
  | some a, some b => some (a * b)
  | _, _ => none

/-- Stringification of a number, as performed by `setAttribute`. -/
def jsToString : JsNum → String
  | none => "NaN"
  | some z => toString z

/-- The comparison `i > s` for a loop counter `i` and a `JsNum` `s`;
any comparison against NaN is false in JavaScript. -/
def jsGtNat (i : Nat) (s : JsNum) : Bool :=
  match s with
  | some z => decide (z < (i : Int))
  | none => false

/-- Split a character list at commas, as JavaScript `split(",")`. -/
def splitCommaAux : List Char → List Char → List String
  | [], acc => [String.mk acc.reverse]
  | c :: cs, acc =>
    if c = ',' then String.mk acc.reverse :: splitCommaAux cs []
    else splitCommaAux cs (c :: acc)

/-- JavaScript `s.split(",")`. -/
def splitComma (s : String) : List String :=
  splitCommaAux s.data []

/-- JavaScript `s.trim()`: strip whitespace from both ends. -/
def trimStr (s : String) : String :=
  String.mk (((s.data.dropWhile Char.isWhitespace).reverse.dropWhile
    Char.isWhitespace).reverse)

/-- First character of a string (`s[0]` in JavaScript); only ever used on
nonempty strings, where the default is irrelevant. -/
def firstChar (s : String) : Char :=
  s.data.headD ' '

/-- Value of a decimal digit character. -/
def decDigit? (c : Char) : Option Nat :=
  if c.isDigit then some (c.toNat - 48) else none

/-- Value of a hexadecimal digit character. -/
def hexDigit? (c : Char) : Option Nat :=
  if c.isDigit then some (c.toNat - 48)
  else if 'a' ≤ c ∧ c ≤ 'f' then some (c.toNat - 87)
  else if 'A' ≤ c ∧ c ≤ 'F' then some (c.toNat - 55)
  else none

/-- Accumulate the longest prefix of digits, as `parseInt` does; the
accumulator is `none` until at least one digit has been read. -/
def parseDigits (dig : Char → Option Nat) (base : Nat) :
    List Char → Option Nat → Option Nat
  | [], acc => acc
  | c :: cs, acc =>
    match dig c with
    | some d => parseDigits dig base cs (some ((acc.getD 0) * base + d))
    | none => acc

/-- JavaScript `parseInt(s)` (radix unspecified): skip leading whitespace,
read an optional sign, auto-detect a `0x`/`0X` prefix as hexadecimal,
take the longest digit prefix; NaN when no digit is found. -/
def parseIntJs (s : String) : JsNum :=
  let cs := s.data.dropWhile (fun c => c.isWhitespace)
  let sgn : Int × List Char :=
    match cs with
    | '-' :: rest => (-1, rest)
    | '+' :: rest => (1, rest)
    | _ => (1, cs)
  let mag : Option Nat :=
    match sgn.2 with
    | '0' :: 'x' :: rest => parseDigits hexDigit? 16 rest none
    | '0' :: 'X' :: rest => parseDigits hexDigit? 16 rest none
    | l => parseDigits decDigit? 10 l none
  mag.map (fun n => sgn.1 * (n : Int))

/-- Attribute lookup (`getAttribute` / `hasAttribute`). -/
def getAttr : List (String × String) → String → Option String
  | [], _ => none
  | (k, v) :: rest, key => if k = key then some v else getAttr rest key

/-- Attribute removal (`removeAttribute`). -/
def removeA : List (String × String) → String → List (String × String)
  | [], _ => []
  | (k, v) :: rest, key =>
    if k = key then removeA rest key else (k, v) :: removeA rest key

/-- Attribute update (`setAttribute`): replace any existing binding. -/
def setA (l : List (String × String)) (key v : String) :
    List (String × String) :=
  removeA l key ++ [(key, v)]

/-- Class addition (`classList.add`): a no-op when already present. -/
def addC (l : List String) (c : String) : List String :=
  if l.contains c then l else l ++ [c]

/-- A DOM-like document: per-id node data plus the tree structure and the
document-order enumeration of all element ids (used by the
`querySelectorAll` sweep). -/
structure Dom where
  nodeName : Nat → String
  classes : Nat → List String
  attrs : Nat → List (String × String)
  parent : Nat → Option Nat
  childrenIds : Nat → List Nat
  allIds : List Nat

/-- Update of one element's attribute list inside the document. -/
def setAttr (d : Dom) (e : Nat) (key v : String) : Dom :=
  { d with attrs := fun j => if j = e then setA (d.attrs j) key v else d.attrs j }

/-- Removal of one element's attribute inside the document. -/
def removeAttr (d : Dom) (e : Nat) (key : String) : Dom :=
  { d with attrs := fun j => if j = e then removeA (d.attrs j) key else d.attrs j }

/-- Addition of one class to one element inside the document. -/
def addClass (d : Dom) (e : Nat) (c : String) : Dom :=
  { d with classes := fun j => if j = e then addC (d.classes j) c else d.classes j }

/-- The plugin's option record.  The source never places `initRelative`
in the defaults; it is only read in boolean position and only ever set to
a boolean, so the `undefined` default is embedded as `false`. -/
structure Options where
  enabled : Bool
  skip : JsNum
  indexStart : JsNum
  indexStep : JsNum
  initRelative : Bool
deriving DecidableEq, Repr

/-- Default options of the plugin constructor. -/
def defaultOptions : Options :=
  { enabled := false, skip := some 0, indexStart := some 10,
    indexStep := some 10, initRelative := false }

/-- Result of the `initRelative` ancestor walk. -/
inductive WalkResult where
  | found (v : String)
  | notFound
  | outOfFuel
deriving DecidableEq, Repr

/-- The `while` loop of `addFragment` lines 30–37: while the current
element has a parent and does not carry class `slides`, step to the
parent and stop at the first one carrying `data-fragment-index`. -/
def walkUp (doc : Dom) : Nat → Nat → WalkResult
  | _, 0 => .outOfFuel
  | cur, fuel + 1 =>
    match doc.parent cur with
    | none => .notFound
    | some p =>
      if (doc.classes cur).contains "slides" then .notFound
      else
        match getAttr (doc.attrs p) "data-fragment-index" with
        | some v => .found v
        | none => walkUp doc p fuel

/-- The effective `indexStart` used by `addFragment` after the
`initRelative` adjustment (lines 28–38 of the source). -/
def effectiveStart (doc : Dom) (elements : List Nat) (o : Options)
    (fuel : Nat) : JsNum :=
  if o.initRelative then
    match elements with
    | [] => o.indexStart
    | e0 :: _ =>
      match walkUp doc e0 fuel with
      | .found v => jsAdd o.indexStart (parseIntJs v)
      | _ => o.indexStart
  else o.indexStart

/-- The `for` loop of `addFragment` lines 40–50: `i` is the 1-based loop
counter; add class `fragment` past the first `skip` elements, and set
`data-fragment-index` to `indexStart + (i-1)*indexStep` when absent. -/
def assignLoop (doc : Dom) (els : List Nat) (skip base step : JsNum)
    (i : Nat) : Dom :=
  match els with
  | [] => doc
  | e :: rest =>
    let d1 := if jsGtNat i skip && !(doc.classes e).contains "fragment"
              then addClass doc e "fragment" else doc
    let d2 := if (getAttr (d1.attrs e) "data-fragment-index").isNone
              then setAttr d1 e "data-fragment-index"
                     (jsToString (jsAdd base (jsMul (some ((i - 1 : Nat) : Int)) step)))
              else d1
    assignLoop d2 rest skip base step (i + 1)

/-- `addFragment(elements, options)`, lines 22–51 of the source. -/
def addFragment (doc : Dom) (elements : List Nat) (o : Options)
    (fuel : Nat) : Dom :=
  if elements.length = 0 then doc
  else assignLoop doc elements o.skip (effectiveStart doc elements o fuel)
         o.indexStep 1

/-- `getOptionsFromAttr(options, element)`, lines 54–90 of the source:
consume the `data-auto-fragment` attribute and merge the parsed directive
into the options.  Returns the updated options and document. -/
def getOptionsFromAttr (o : Options) (doc : Dom) (e : Nat) :
    Options × Dom :=
  match getAttr (doc.attrs e) "data-auto-fragment" with
  | none => (o, doc)
  | some attr =>
    let doc1 := removeAttr doc e "data-auto-fragment"
    let o1 := { o with enabled := true }
    if attr = "" then (o1, doc1)
    else if attr = "false" then ({ o1 with enabled := false }, doc1)
    else
      let values := (splitComma attr).map trimStr
      let v0 := values.getD 0 ""
      let v1 := values.getD 1 ""
      let v2 := values.getD 2 ""
      let o2 := if v0.length > 0 then { o1 with skip := parseIntJs v0 } else o1
      let o3 := if v1.length > 0 then
                  { o2 with initRelative := (firstChar v1 == '+'),
                            indexStart := parseIntJs v1 }
                else o2
      let o4 := if v2.length > 0 then { o3 with indexStep := parseIntJs v2 } else o3
      (o4, doc1)

/-- `isHeading(element)`: the node name matches `^H[1-6]$`. -/
def isHeading (doc : Dom) (e : Nat) : Bool :=
  ["H1", "H2", "H3", "H4", "H5", "H6"].contains (doc.nodeName e)

/-- `isPresenterNotes(element)`: an `ASIDE` carrying class `notes`. -/
def isPresenterNotes (doc : Dom) (e : Nat) : Bool :=
  doc.nodeName e == "ASIDE" && (doc.classes e).contains "notes"

/-- `getContentElements(slide)`, lines 101–115 of the source: the direct
children, the first one dropped when it is a heading, presenter notes
skipped wherever they appear. -/
def getContentElements (doc : Dom) (slide : Nat) : List Nat :=
  match doc.childrenIds slide with
  | [] => []
  | c0 :: rest =>
    (if isHeading doc c0 then rest else c0 :: rest).filter
      (fun c => !isPresenterNotes doc c)

/-- The singleton-descent loop of `processSlide` lines 141–143: while the
candidate list has exactly one element, replace it by that element's
children.  `none` means the fuel ran out. -/
def descend (doc : Dom) : List Nat → Nat → Option (List Nat)
  | [c], fuel + 1 => descend doc (doc.childrenIds c) fuel
  | [_], 0 => none
  | l, _ => some l

/-- Option resolution of `processSlide`, lines 124–132 of the source:
default/global options, the title-slide suppression, the slide's own
marker, then the first-child heading's marker. -/
def resolveOptions (doc : Dom) (g : Options) (slide : Nat) : Options × Dom :=
  let o := if (doc.classes slide).contains "title-slide"
           then { g with enabled := false } else g
  let p1 := getOptionsFromAttr o doc slide
  if 0 < (p1.2.childrenIds slide).length
      ∧ isHeading p1.2 ((p1.2.childrenIds slide).headD 0)
  then getOptionsFromAttr p1.1 p1.2 ((p1.2.childrenIds slide).headD 0)
  else p1

/-- Fragment application of `processSlide`, lines 134–147 of the source:
stop when not enabled, select content, singleton-descend, and assign when
more than one element remains. -/
def applyAuto (p : Options × Dom) (slide : Nat) (fuel : Nat) : Dom :=
  if !p.1.enabled then p.2
  else
    match descend p.2 (getContentElements p.2 slide) fuel with
    | none => p.2
    | some l => if l.length > 1 then addFragment p.2 l p.1 fuel else p.2

/-- `processSlide(slide)`, lines 118–148 of the source. -/
def processSlide (doc : Dom) (g : Options) (slide : Nat) (fuel : Nat) : Dom :=
  applyAuto (resolveOptions doc g slide) slide fuel

/-- The singleton-descent loop of the sweep, lines 170–172 of the source:
while the element has exactly one child, step into it. -/
def descendElem (doc : Dom) : Nat → Nat → Option Nat
  | e, fuel + 1 =>
    match doc.childrenIds e with
    | [c] => descendElem doc c fuel
    | _ => some e
  | e, 0 =>
    match doc.childrenIds e with
    | [_] => none
    | _ => some e

/-- One iteration of the deck-wide sweep, lines 166–176 of the source:
consume the marker attribute, singleton-descend, and apply `addFragment`
to the children when more than one remains.  The `enabled` flag is not
consulted, exactly as in the source. -/
def sweepElement (doc : Dom) (g : Options) (e : Nat) (fuel : Nat) : Dom :=
  let p := getOptionsFromAttr g doc e
  match descendElem p.2 e fuel with
  | none => p.2
  | some e1 =>
    if (p.2.childrenIds e1).length > 1 then addFragment p.2 (p.2.childrenIds e1) p.1 fuel
    else p.2

/-- `init(reveal)` lines 159–176: process every slide, then sweep every
element still carrying `data-auto-fragment` (the `querySelectorAll`
snapshot is taken once, after the per-slide pass). -/
def initPass (doc : Dom) (g : Options) (slides : List Nat) (fuel : Nat) : Dom :=
  let d1 := slides.foldl (fun d s => processSlide d g s fuel) doc
  let marked := d1.allIds.filter
    (fun e => (getAttr (d1.attrs e) "data-auto-fragment").isSome)
  marked.foldl (fun d e => sweepElement d g e fuel) d1

/-! Spec-side definitions, used to compare the code against the
specification's own words. -/

/-- Written from the spec: the ancestor on which the relative-base walk
ends. Walk from the first element upward through the ancestor chain,
stopping at the slide container boundary (an element carrying class
`slides`), until an ancestor carrying `data-fragment-index` is found. -/
def nearestIndexedAncestor (doc : Dom) : Nat → List Nat → Option Nat
  | _, [] => none
  | cur, a :: rest =>
    if (doc.classes cur).contains "slides" then none
    else if (getAttr (doc.attrs a) "data-fragment-index").isSome then some a
    else nearestIndexedAncestor doc a rest

/-- The list `chain` is exactly the chain of strict ancestors of `e`,
nearest first, ending at the root. -/
def IsAncChain (doc : Dom) : Nat → List Nat → Prop
  | e, [] => doc.parent e = none
  | e, a :: rest => doc.parent e = some a ∧ IsAncChain doc a rest

/-- Written from the spec: a child at position `j` is selected as content
iff it is not a presenter-notes container and not a heading sitting at the
very first position. -/
def specContentElements (doc : Dom) (slide : Nat) : List Nat :=
  (((doc.childrenIds slide).enum).filter
    (fun p => !(p.1 == 0 && isHeading doc p.2) && !isPresenterNotes doc p.2)).map
    Prod.snd

/-- Field `n` of a directive string: split on commas, trim each field,
empty when the field is missing. -/
def trimmedField (attr : String) (n : Nat) : String :=
  ((splitComma attr).map trimStr).getD n ""

/-- The configuration `r` that the spec prescribes for parsing directive
`attr` into configuration `o`: the attribute's presence enables the scope
except for the exact string `"false"`; the empty string and `"false"`
change no other field; otherwise the three positional fields update
`skip`, `initRelative`/`indexStart` and `indexStep`, empty fields leaving
the configuration unchanged. -/
def ParsesAs (o : Options) (attr : String) (r : Options) : Prop :=
  (r.enabled = true ↔ attr ≠ "false")
  ∧ (attr = "" → r = { o with enabled := true })
  ∧ (attr = "false" → r = { o with enabled := false })
  ∧ (attr ≠ "" → attr ≠ "false" →
      (r.skip = if (trimmedField attr 0).length > 0
                then parseIntJs (trimmedField attr 0) else o.skip)
      ∧ (r.initRelative = if (trimmedField attr 1).length > 0
                          then (firstChar (trimmedField attr 1) == '+')
                          else o.initRelative)
      ∧ (r.indexStart = if (trimmedField attr 1).length > 0
                        then parseIntJs (trimmedField attr 1) else o.indexStart)
      ∧ (r.indexStep = if (trimmedField attr 2).length > 0
                       then parseIntJs (trimmedField attr 2) else o.indexStep))

/-- The behaviour the spec prescribes for the element at 1-based loop
position `i` of the assignment loop: after the call it carries the
fragment tag iff `i > skip` or it carried it before, a missing index
attribute is set to `base + (i-1)*step`, and an existing index attribute
is kept unchanged. -/
def LoopSpec (doc res : Dom) (skip base step : JsNum) (i : Nat) (x : Nat) : Prop :=
  ((res.classes x).contains "fragment" = true
     ↔ (jsGtNat i skip = true ∨ (doc.classes x).contains "fragment" = true))
  ∧ (getAttr (doc.attrs x) "data-fragment-index" = none →
       getAttr (res.attrs x) "data-fragment-index"
         = some (jsToString (jsAdd base (jsMul (some ((i - 1 : Nat) : Int)) step))))
  ∧ (∀ v, getAttr (doc.attrs x) "data-fragment-index" = some v →
       getAttr (res.attrs x) "data-fragment-index" = some v)

/-- The document `d` agrees with `doc` everywhere except possibly on
`data-auto-fragment` attributes (the only thing option resolution may
change). -/
def DocLike (doc d : Dom) : Prop :=
  d.classes = doc.classes ∧ d.childrenIds = doc.childrenIds
  ∧ d.nodeName = doc.nodeName ∧ d.allIds = doc.allIds
  ∧ ∀ (x : Nat) (key : String), key ≠ "data-auto-fragment" →
      getAttr (d.attrs x) key = getAttr (doc.attrs x) key

/-! Concrete documents used as counterexamples and witnesses. -/

/-- A slide (id 0) carrying directive `"0,x"` with two paragraph
children (ids 1, 2). -/
def domNaN : Dom where
  nodeName := fun i => if i = 0 then "SECTION" else "P"
  classes := fun _ => []
  attrs := fun i => if i = 0 then [("data-auto-fragment", "0,x")] else []
  parent := fun i => if i = 0 then none else some 0
  childrenIds := fun i => if i = 0 then [1, 2] else []
  allIds := [0, 1, 2]

/-- A slide (id 10) containing a div (id 0) that carries directive
`"false"` and has two paragraph children (ids 1, 2). -/
def domFalse : Dom where
  nodeName := fun i => if i = 10 then "SECTION" else if i = 0 then "DIV" else "P"
  classes := fun _ => []
  attrs := fun i => if i = 0 then [("data-auto-fragment", "false")] else []
  parent := fun i => if i = 0 then some 10 else if i = 10 then none else some 0
  childrenIds := fun i => if i = 10 then [0] else if i = 0 then [1, 2] else []
  allIds := [10, 0, 1, 2]

/-- A slide (id 0) carrying directive `"1"` with two paragraph children
(ids 1, 2). -/
def domSkip : Dom where
  nodeName := fun i => if i = 0 then "SECTION" else "P"
  classes := fun _ => []
  attrs := fun i => if i = 0 then [("data-auto-fragment", "1")] else []
  parent := fun i => if i = 0 then none else some 0
  childrenIds := fun i => if i = 0 then [1, 2] else []
  allIds := [0, 1, 2]

/-- A globally enabled configuration (all other fields default). -/
def enabledOptions : Options :=
  { defaultOptions with enabled := true }

/-- A slide (id 0) carrying directive `""` whose single child is a div
wrapper (id 4) containing a presenter-notes aside (id 1) and two
paragraphs (ids 2, 3). -/
def domNotes : Dom where
  nodeName := fun i =>
    if i = 0 then "SECTION" else if i = 4 then "DIV"
    else if i = 1 then "ASIDE" else "P"
  classes := fun i => if i = 1 then ["notes"] else []
  attrs := fun i => if i = 0 then [("data-auto-fragment", "")] else []
  parent := fun i => if i = 0 then none else if i = 4 then some 0 else some 4
  childrenIds := fun i => if i = 0 then [4] else if i = 4 then [1, 2, 3] else []
  allIds := [0, 4, 1, 2, 3]

/-- An element (id 0) whose parent (id 1) carries `data-fragment-index`
`"20"` and whose grandparent (id 2) is the `slides` container. -/
def domRel : Dom where
  nodeName := fun _ => "DIV"
  classes := fun i => if i = 2 then ["slides"] else []
  attrs := fun i => if i = 1 then [("data-fragment-index", "20")] else []
  parent := fun i => if i = 0 then some 1 else if i = 1 then some 2 else none
  childrenIds := fun _ => []
  allIds := [0, 1, 2]

/-- Options with `initRelative` set and `indexStart` 5, as in the spec's
relative-resolution example. -/
def relOptions : Options :=
  { defaultOptions with
    enabled := true, initRelative := true, indexStart := some 5 }

/-- A three-element document used to exercise `addFragment` directly:
two paragraphs (ids 1, 2), the second already carrying class `fragment`
and an index attribute, plus an untouched bystander (id 9). -/
def domPlain : Dom where
  nodeName := fun _ => "P"
  classes := fun i => if i = 2 then ["fragment"] else []
  attrs := fun i => if i = 2 then [("data-fragment-index", "7")] else []
  parent := fun _ => none
  childrenIds := fun _ => []
  allIds := [1, 2, 9]

/-- A chain of two singleton wrappers: 0 contains 1, 1 contains 2, and 2
has two children 3, 4 (used for the descent-termination witness). -/
def domChain : Dom where
  nodeName := fun _ => "DIV"
  classes := fun _ => []
  attrs := fun _ => []
  parent := fun i => if i = 0 then none else if i ≤ 4 then some (i - 1) else none
  childrenIds := fun i =>
    if i = 0 then [1] else if i = 1 then [2] else if i = 2 then [3, 4] else []
  allIds := [0, 1, 2, 3, 4]

/-- Height function witnessing that `domChain` is acyclic. -/
def chainHeight : Nat → Nat :=
  fun i => 5 - i

/-- A document with no marker attribute anywhere (two paragraphs under a
slide), used for the reprocessing part of the consumption claim. -/
def domClean : Dom where
  nodeName := fun i => if i = 0 then "SECTION" else "P"
  classes := fun _ => []
  attrs := fun _ => []
  parent := fun i => if i = 0 then none else some 0
  childrenIds := fun i => if i = 0 then [1, 2] else []
  allIds := [0, 1, 2]

/-- A slide (id 0) with children: a presenter-notes aside (id 1) and two
paragraphs (ids 2, 3), the aside sitting first. -/
def domNotesFlat : Dom where
  nodeName := fun i =>
    if i = 0 then "SECTION" else if i = 1 then "ASIDE" else "P"
  classes := fun i => if i = 1 then ["notes"] else []
  attrs := fun i => if i = 0 then [("data-auto-fragment", "")] else []
  parent := fun i => if i = 0 then none else some 0
  childrenIds := fun i => if i = 0 then [1, 2, 3] else []
  allIds := [0, 1, 2, 3]

/-- A slide (id 0) whose marker is `"2,+5,3"`, used as parsing witness. -/
def domParse : Dom where
  nodeName := fun i => if i = 0 then "SECTION" else "P"
  classes := fun _ => []
  attrs := fun i => if i = 0 then [("data-auto-fragment", "2,+5,3")] else []
  parent := fun i => if i = 0 then none else some 0
  childrenIds := fun i => if i = 0 then [1, 2] else []
  allIds := [0, 1, 2]

/-! Lemmas about the attribute-list and class-list primitives. -/

theorem getAttr_removeA_self (key : String) :
    ∀ l : List (String × String), getAttr (removeA l key) key = none := by
  intro l
  induction l with
  | nil => rfl
  | cons hd tl ih =>
    obtain ⟨k, v⟩ := hd
    by_cases hk : k = key
    · simpa [removeA, hk] using ih
    · simpa [removeA, getAttr, hk] using ih

theorem getAttr_removeA_ne {key key' : String} (h : key' ≠ key) :
    ∀ l : List (String × String), getAttr (removeA l key) key' = getAttr l key' := by
  intro l
  induction l with
  | nil => rfl
  | cons hd tl ih =>
    obtain ⟨k, v⟩ := hd
    by_cases hk : k = key
    · have hk' : k ≠ key' := by rw [hk]; exact Ne.symm h
      simp only [removeA, getAttr, if_pos hk, if_neg hk']
      exact ih
    · by_cases hk2 : k = key'
      · simp only [removeA, getAttr, if_neg hk, if_pos hk2]
      · simp only [removeA, getAttr, if_neg hk, if_neg hk2]
        exact ih

theorem getAttr_append (l1 l2 : List (String × String)) (key : String) :
    getAttr (l1 ++ l2) key
      = match getAttr l1 key with
        | some v => some v
        | none => getAttr l2 key := by
  induction l1 with
  | nil => rfl
  | cons hd tl ih =>
    obtain ⟨k, v⟩ := hd
    by_cases hk : k = key
    · simp only [List.cons_append, getAttr, if_pos hk]
    · simp only [List.cons_append, getAttr, if_neg hk]
      exact ih

theorem getAttr_setA_self (l : List (String × String)) (key v : String) :
    getAttr (setA l key v) key = some v := by
  unfold setA
  rw [getAttr_append, getAttr_removeA_self]
  simp [getAttr]

theorem getAttr_setA_ne {key key' : String} (h : key' ≠ key)
    (l : List (String × String)) (v : String) :
    getAttr (setA l key v) key' = getAttr l key' := by
  unfold setA
  rw [getAttr_append, getAttr_removeA_ne h]
  cases hv : getAttr l key' with
  | some w => rfl
  | none => simp [getAttr, Ne.symm h]

theorem mem_addC {l : List String} {c c' : String} :
    c' ∈ addC l c ↔ c' ∈ l ∨ c' = c := by
  unfold addC
  split
  · rename_i hmem
    constructor
    · exact Or.inl
    · rintro (h | rfl)
      · exact h
      · exact List.elem_iff.mp hmem
  · simp

theorem contains_addC (l : List String) (c c' : String) :
    (addC l c).contains c' = true ↔ (l.contains c' = true ∨ c' = c) := by
  rw [List.elem_iff, mem_addC, List.elem_iff]

/-! Projection lemmas for the document-update operations. -/

theorem setAttr_classes (d : Dom) (e : Nat) (key v : String) :
    (setAttr d e key v).classes = d.classes := rfl

theorem setAttr_nodeName (d : Dom) (e : Nat) (key v : String) :
    (setAttr d e key v).nodeName = d.nodeName := rfl

theorem setAttr_parent (d : Dom) (e : Nat) (key v : String) :
    (setAttr d e key v).parent = d.parent := rfl

theorem setAttr_childrenIds (d : Dom) (e : Nat) (key v : String) :
    (setAttr d e key v).childrenIds = d.childrenIds := rfl

theorem setAttr_allIds (d : Dom) (e : Nat) (key v : String) :
    (setAttr d e key v).allIds = d.allIds := rfl

theorem setAttr_attrs (d : Dom) (e e' : Nat) (key v : String) :
    (setAttr d e key v).attrs e'
      = if e' = e then setA (d.attrs e') key v else d.attrs e' := rfl

theorem removeAttr_classes (d : Dom) (e : Nat) (key : String) :
    (removeAttr d e key).classes = d.classes := rfl

theorem removeAttr_nodeName (d : Dom) (e : Nat) (key : String) :
    (removeAttr d e key).nodeName = d.nodeName := rfl

theorem removeAttr_parent (d : Dom) (e : Nat) (key : String) :
    (removeAttr d e key).parent = d.parent := rfl

theorem removeAttr_childrenIds (d : Dom) (e : Nat) (key : String) :
    (removeAttr d e key).childrenIds = d.childrenIds := rfl

theorem removeAttr_allIds (d : Dom) (e : Nat) (key : String) :
    (removeAttr d e key).allIds = d.allIds := rfl

theorem removeAttr_attrs (d : Dom) (e e' : Nat) (key : String) :
    (removeAttr d e key).attrs e'
      = if e' = e then removeA (d.attrs e') key else d.attrs e' := rfl

theorem addClass_attrs (d : Dom) (e : Nat) (c : String) :
    (addClass d e c).attrs = d.attrs := rfl

theorem addClass_nodeName (d : Dom) (e : Nat) (c : String) :
    (addClass d e c).nodeName = d.nodeName := rfl

theorem addClass_parent (d : Dom) (e : Nat) (c : String) :
    (addClass d e c).parent = d.parent := rfl

theorem addClass_childrenIds (d : Dom) (e : Nat) (c : String) :
    (addClass d e c).childrenIds = d.childrenIds := rfl

theorem addClass_allIds (d : Dom) (e : Nat) (c : String) :
    (addClass d e c).allIds = d.allIds := rfl

theorem addClass_classes (d : Dom) (e e' : Nat) (c : String) :
    (addClass d e c).classes e'
      = if e' = e then addC (d.classes e') c else d.classes e' := rfl

/-! Lemmas about the assignment loop of `addFragment`. -/

theorem assignLoop_struct (skip base step : JsNum) :
    ∀ (els : List Nat) (doc : Dom) (j : Nat),
      (assignLoop doc els skip base step j).nodeName = doc.nodeName
      ∧ (assignLoop doc els skip base step j).parent = doc.parent
      ∧ (assignLoop doc els skip base step j).childrenIds = doc.childrenIds
      ∧ (assignLoop doc els skip base step j).allIds = doc.allIds := by
  intro els
  induction els with
  | nil => exact fun doc j => ⟨rfl, rfl, rfl, rfl⟩
  | cons e rest ih =>
    intro doc j
    simp only [assignLoop]
    split_ifs <;>
      exact ⟨(ih _ _).1, (ih _ _).2.1, (ih _ _).2.2.1, (ih _ _).2.2.2⟩

theorem assignLoop_frame (skip base step : JsNum) :
    ∀ (els : List Nat) (doc : Dom) (j : Nat) (x : Nat), x ∉ els →
      (assignLoop doc els skip base step j).classes x = doc.classes x
      ∧ (assignLoop doc els skip base step j).attrs x = doc.attrs x := by
  intro els
  induction els with
  | nil => exact fun doc j x _ => ⟨rfl, rfl⟩
  | cons e rest ih =>
    intro doc j x hx
    have hxe : x ≠ e := fun hc => hx (hc ▸ List.mem_cons_self e rest)
    have hxr : x ∉ rest := fun hc => hx (List.mem_cons_of_mem e hc)
    simp only [assignLoop]
    split_ifs <;>
      refine ⟨((ih _ _ x hxr).1).trans ?_, ((ih _ _ x hxr).2).trans ?_⟩ <;>
      simp [setAttr_classes, setAttr_attrs, addClass_classes, addClass_attrs, hxe]

theorem assignLoop_classes_mono (skip base step : JsNum) :
    ∀ (els : List Nat) (doc : Dom) (j : Nat) (x : Nat) (c : String),
      c ∈ doc.classes x → c ∈ (assignLoop doc els skip base step j).classes x := by
  intro els
  induction els with
  | nil => exact fun doc j x c hc => hc
  | cons e rest ih =>
    intro doc j x c hc
    have hstep : c ∈ (if x = e then addC (doc.classes x) "fragment" else doc.classes x) := by
      by_cases hxe : x = e
      · rw [if_pos hxe]
        exact mem_addC.mpr (Or.inl hc)
      · rwa [if_neg hxe]
    simp only [assignLoop]
    split_ifs
    case _ => exact ih _ _ x c (by simpa only [setAttr_classes, addClass_classes] using hstep)
    case _ => exact ih _ _ x c (by simpa only [addClass_classes] using hstep)
    case _ => exact ih _ _ x c (by simpa only [setAttr_classes] using hc)
    case _ => exact ih _ _ x c hc

theorem assignLoop_classes_sub (skip base step : JsNum) :
    ∀ (els : List Nat) (doc : Dom) (j : Nat) (x : Nat) (c : String),
      c ∈ (assignLoop doc els skip base step j).classes x →
      c ∈ doc.classes x ∨ c = "fragment" := by
  intro els
  induction els with
  | nil => exact fun doc j x c hc => Or.inl hc
  | cons e rest ih =>
    intro doc j x c hc
    simp only [assignLoop] at hc
    split_ifs at hc
    case _ =>
      rcases ih _ _ x c hc with h | h
      · simp only [setAttr_classes, addClass_classes] at h
        by_cases hxe : x = e
        · rw [if_pos hxe] at h
          rcases mem_addC.mp h with h2 | h2
          · exact Or.inl h2
          · exact Or.inr h2
        · rw [if_neg hxe] at h
          exact Or.inl h
      · exact Or.inr h
    case _ =>
      rcases ih _ _ x c hc with h | h
      · simp only [addClass_classes] at h
        by_cases hxe : x = e
        · rw [if_pos hxe] at h
          rcases mem_addC.mp h with h2 | h2
          · exact Or.inl h2
          · exact Or.inr h2
        · rw [if_neg hxe] at h
          exact Or.inl h
      · exact Or.inr h
    case _ =>
      rcases ih _ _ x c hc with h | h
      · simp only [setAttr_classes] at h
        exact Or.inl h
      · exact Or.inr h
    case _ =>
      exact ih _ _ x c hc

theorem assignLoop_attrs_other (skip base step : JsNum) :
    ∀ (els : List Nat) (doc : Dom) (j : Nat) (x : Nat) (key : String),
      key ≠ "data-fragment-index" →
      getAttr ((assignLoop doc els skip base step j).attrs x) key
        = getAttr (doc.attrs x) key := by
  intro els
  induction els with
  | nil => exact fun doc j x key _ => rfl
  | cons e rest ih =>
    intro doc j x key hkey
    simp only [assignLoop]
    split_ifs
    case _ =>
      rw [ih _ _ x key hkey]
      simp only [setAttr_attrs, addClass_attrs]
      by_cases hxe : x = e
      · rw [if_pos hxe, getAttr_setA_ne hkey]
      · rw [if_neg hxe]
    case _ =>
      rw [ih _ _ x key hkey]
      rfl
    case _ =>
      rw [ih _ _ x key hkey]
      simp only [setAttr_attrs]
      by_cases hxe : x = e
      · rw [if_pos hxe, getAttr_setA_ne hkey]
      · rw [if_neg hxe]
    case _ =>
      exact ih _ _ x key hkey

theorem assignLoop_attrs_kept (skip base step : JsNum) :
    ∀ (els : List Nat) (doc : Dom) (j : Nat) (x : Nat) (v : String),
      getAttr (doc.attrs x) "data-fragment-index" = some v →
      getAttr ((assignLoop doc els skip base step j).attrs x) "data-fragment-index"
        = some v := by
  intro els
  induction els with
  | nil => exact fun doc j x v hv => hv
  | cons e rest ih =>
    intro doc j x v hv
    simp only [assignLoop]
    split_ifs
    case _ h1 h2 =>
      refine ih _ _ x v ?_
      simp only [setAttr_attrs, addClass_attrs]
      by_cases hxe : x = e
      · exfalso
        simp only [addClass_attrs] at h2
        rw [hxe] at hv
        rw [hv] at h2
        simp at h2
      · rw [if_neg hxe]
        exact hv
    case _ =>
      exact ih _ _ x v hv
    case _ h1 h2 =>
      refine ih _ _ x v ?_
      simp only [setAttr_attrs]
      by_cases hxe : x = e
      · exfalso
        rw [hxe] at hv
        rw [hv] at h2
        simp at h2
      · rw [if_neg hxe]
        exact hv
    case _ =>
      exact ih _ _ x v hv

theorem LoopSpec_congr {doc doc2 res : Dom} {skip base step : JsNum} {i x : Nat}
    (hc : doc2.classes x = doc.classes x) (ha : doc2.attrs x = doc.attrs x)
    (h : LoopSpec doc2 res skip base step i x) :
    LoopSpec doc res skip base step i x := by
  unfold LoopSpec at h ⊢
  rw [hc, ha] at h
  exact h

theorem assignLoop_head (skip base step : JsNum) (doc : Dom) (e : Nat)
    (rest : List Nat) (j : Nat) (he : e ∉ rest) :
    LoopSpec doc (assignLoop doc (e :: rest) skip base step j) skip base step j e := by
  have hframe := fun d2 => assignLoop_frame skip base step rest d2 (j + 1) e he
  unfold LoopSpec
  simp only [assignLoop]
  split_ifs with h1 h2 h2
  case _ =>
    have hj : jsGtNat j skip = true := by
      simp only [Bool.and_eq_true] at h1
      exact h1.1
    refine ⟨?_, ?_, ?_⟩
    · rw [(hframe _).1]
      simp only [setAttr_classes, addClass_classes, eq_self_iff_true, if_true]
      constructor
      · intro _
        exact Or.inl hj
      · intro _
        exact (contains_addC _ _ _).mpr (Or.inr rfl)
    · intro hnone
      rw [(hframe _).2]
      simp only [setAttr_attrs, eq_self_iff_true, if_true]
      exact getAttr_setA_self _ _ _
    · intro v hv
      exfalso
      simp only [addClass_attrs] at h2
      rw [hv] at h2
      simp at h2
  case _ =>
    have hj : jsGtNat j skip = true := by
      simp only [Bool.and_eq_true] at h1
      exact h1.1
    refine ⟨?_, ?_, ?_⟩
    · rw [(hframe _).1]
      simp only [addClass_classes, eq_self_iff_true, if_true]
      constructor
      · intro _
        exact Or.inl hj
      · intro _
        exact (contains_addC _ _ _).mpr (Or.inr rfl)
    · intro hnone
      exfalso
      simp only [addClass_attrs] at h2
      rw [hnone] at h2
      simp at h2
    · intro v hv
      rw [(hframe _).2]
      simp only [addClass_attrs]
      exact hv
  case _ =>
    refine ⟨?_, ?_, ?_⟩
    · rw [(hframe _).1, setAttr_classes]
      constructor
      · exact Or.inr
      · rintro (hj | hcls)
        · cases hcontains : (doc.classes e).contains "fragment"
          · exfalso
            apply h1
            rw [hj, hcontains]
            rfl
          · rfl
        · exact hcls
    · intro hnone
      rw [(hframe _).2]
      simp only [setAttr_attrs, eq_self_iff_true, if_true]
      exact getAttr_setA_self _ _ _
    · intro v hv
      exfalso
      rw [hv] at h2
      simp at h2
  case _ =>
    refine ⟨?_, ?_, ?_⟩
    · rw [(hframe _).1]
      constructor
      · exact Or.inr
      · rintro (hj | hcls)
        · cases hcontains : (doc.classes e).contains "fragment"
          · exfalso
            apply h1
            rw [hj, hcontains]
            rfl
          · rfl
        · exact hcls
    · intro hnone
      exfalso
      rw [hnone] at h2
      simp at h2
    · intro v hv
      rw [(hframe _).2]
      exact hv

theorem assignLoop_spec (skip base step : JsNum) :
    ∀ (els : List Nat) (doc : Dom) (j p : Nat) (x : Nat),
      els.Nodup → els.get? p = some x →
      LoopSpec doc (assignLoop doc els skip base step j) skip base step (j + p) x := by
  intro els
  induction els with
  | nil =>
    intro doc j p x hnd hx
    simp at hx
  | cons e rest ih =>
    intro doc j p x hnd hx
    have hnd1 : e ∉ rest := (List.nodup_cons.mp hnd).1
    have hnd2 : rest.Nodup := (List.nodup_cons.mp hnd).2
    cases p with
    | zero =>
      have hxe : e = x := by simpa using hx
      subst hxe
      simpa using assignLoop_head skip base step doc e rest j hnd1
    | succ q =>
      have hx' : rest.get? q = some x := by simpa using hx
      have hxr : x ∈ rest := List.get?_mem hx'
      have hxe : x ≠ e := fun hc => hnd1 (hc ▸ hxr)
      have hcnt : j + 1 + q = j + (q + 1) := by omega
      simp only [assignLoop]
      split_ifs
      case _ =>
        refine LoopSpec_congr ?_ ?_ (hcnt ▸ ih _ (j + 1) q x hnd2 hx')
        · simp [setAttr_classes, addClass_classes, hxe]
        · simp [setAttr_attrs, addClass_attrs, hxe]
      case _ =>
        refine LoopSpec_congr ?_ ?_ (hcnt ▸ ih _ (j + 1) q x hnd2 hx')
        · simp [addClass_classes, hxe]
        · simp [addClass_attrs]
      case _ =>
        refine LoopSpec_congr ?_ ?_ (hcnt ▸ ih _ (j + 1) q x hnd2 hx')
        · simp [setAttr_classes]
        · simp [setAttr_attrs, hxe]
      case _ =>
        exact hcnt ▸ ih _ (j + 1) q x hnd2 hx'

/-! Lemmas about the ancestor walk. -/

theorem walkUp_spec (doc : Dom) :
    ∀ (chain : List Nat) (e : Nat) (fuel : Nat),
      IsAncChain doc e chain → chain.length < fuel →
      ((∀ a, nearestIndexedAncestor doc e chain = some a →
          ∀ v, getAttr (doc.attrs a) "data-fragment-index" = some v →
            walkUp doc e fuel = .found v)
       ∧ (nearestIndexedAncestor doc e chain = none →
            walkUp doc e fuel = .notFound)) := by
  intro chain
  induction chain with
  | nil =>
    intro e fuel hch hf
    obtain ⟨f, rfl⟩ : ∃ f, fuel = f + 1 := ⟨fuel - 1, by omega⟩
    constructor
    · intro a ha
      simp [nearestIndexedAncestor] at ha
    · intro _
      have hpar : doc.parent e = none := hch
      simp [walkUp, hpar]
  | cons a rest ih =>
    intro e fuel hch hf
    obtain ⟨hpar, hch2⟩ := hch
    obtain ⟨f, rfl⟩ : ∃ f, fuel = f + 1 := ⟨fuel - 1, by omega⟩
    have hf2 : rest.length < f := by
      simp only [List.length_cons] at hf
      omega
    by_cases hsl : "slides" ∈ doc.classes e
    · constructor
      · intro a' ha'
        simp [nearestIndexedAncestor, hsl] at ha'
      · intro _
        simp [walkUp, hpar, hsl]
    · cases hattr : getAttr (doc.attrs a) "data-fragment-index" with
      | some v =>
        constructor
        · intro a' ha' v' hv'
          have hn : nearestIndexedAncestor doc e (a :: rest) = some a := by
            simp [nearestIndexedAncestor, hsl, hattr]
          rw [hn] at ha'
          injection ha' with h
          subst h
          rw [hattr] at hv'
          injection hv' with h2
          subst h2
          simp [walkUp, hpar, hsl, hattr]
        · intro hnone
          simp [nearestIndexedAncestor, hsl, hattr] at hnone
      | none =>
        have heq : nearestIndexedAncestor doc e (a :: rest)
            = nearestIndexedAncestor doc a rest := by
          simp [nearestIndexedAncestor, hsl, hattr]
        have hwalk : walkUp doc e (f + 1) = walkUp doc a f := by
          simp [walkUp, hpar, hsl, hattr]
        obtain ⟨ih1, ih2⟩ := ih a f hch2 hf2
        constructor
        · intro a' ha' v' hv'
          rw [hwalk]
          exact ih1 a' (heq ▸ ha') v' hv'
        · intro hnone
          rw [hwalk]
          exact ih2 (heq ▸ hnone)

/-! Lemmas about the singleton descent. -/

theorem descend_of_ne_one (doc : Dom) (l : List Nat) (fuel : Nat)
    (h : l.length ≠ 1) : descend doc l fuel = some l := by
  match l, fuel with
  | [], 0 => rfl
  | [], fuel + 1 => rfl
  | [c], _ => simp at h
  | a :: b :: rest, 0 => rfl
  | a :: b :: rest, fuel + 1 => rfl

theorem descend_total (doc : Dom) (h : Nat → Nat)
    (hwf : ∀ i c, c ∈ doc.childrenIds i → h c < h i) :
    ∀ l : List Nat, ∃ fuel r, descend doc l fuel = some r ∧ r.length ≠ 1 := by
  have key : ∀ (n : Nat) (c : Nat), h c ≤ n →
      ∃ fuel r, descend doc (doc.childrenIds c) fuel = some r ∧ r.length ≠ 1 := by
    intro n
    induction n with
    | zero =>
      intro c hc
      cases hcl : doc.childrenIds c with
      | nil => exact ⟨0, [], by simp [descend], by simp⟩
      | cons c1 rest =>
        cases rest with
        | nil =>
          exfalso
          have := hwf c c1 (by rw [hcl]; exact List.mem_singleton.mpr rfl)
          omega
        | cons c2 rest2 =>
          exact ⟨0, c1 :: c2 :: rest2, rfl, by simp⟩
    | succ n ihn =>
      intro c hc
      cases hcl : doc.childrenIds c with
      | nil => exact ⟨0, [], by simp [descend], by simp⟩
      | cons c1 rest =>
        cases rest with
        | nil =>
          have hlt := hwf c c1 (by rw [hcl]; exact List.mem_singleton.mpr rfl)
          obtain ⟨fuel, r, hd, hr⟩ := ihn c1 (by omega)
          refine ⟨fuel + 1, r, ?_, hr⟩
          simpa [descend] using hd
        | cons c2 rest2 =>
          exact ⟨0, c1 :: c2 :: rest2, rfl, by simp⟩
  intro l
  match l with
  | [] => exact ⟨0, [], rfl, by simp⟩
  | [c] =>
    obtain ⟨fuel, r, hd, hr⟩ := key (h c) c le_rfl
    refine ⟨fuel + 1, r, ?_, hr⟩
    simpa [descend] using hd
  | a :: b :: rest => exact ⟨0, a :: b :: rest, rfl, by simp⟩

/-! Lemmas about `addFragment` as a whole. -/

theorem addFragment_classes_frame (doc : Dom) (elements : List Nat)
    (o : Options) (fuel : Nat) (x : Nat) (hx : x ∉ elements) :
    (addFragment doc elements o fuel).classes x = doc.classes x
    ∧ (addFragment doc elements o fuel).attrs x = doc.attrs x := by
  unfold addFragment
  split_ifs
  · exact ⟨rfl, rfl⟩
  · exact assignLoop_frame _ _ _ elements doc 1 x hx

/-! Lemmas about the consumption of the marker attribute. -/

theorem getOptionsFromAttr_doc_none (o : Options) (doc : Dom) (e : Nat)
    (h : getAttr (doc.attrs e) "data-auto-fragment" = none) :
    getOptionsFromAttr o doc e = (o, doc) := by
  simp [getOptionsFromAttr, h]

theorem getOptionsFromAttr_doc_some (o : Options) (doc : Dom) (e : Nat)
    (attr : String) (h : getAttr (doc.attrs e) "data-auto-fragment" = some attr) :
    (getOptionsFromAttr o doc e).2 = removeAttr doc e "data-auto-fragment" := by
  simp only [getOptionsFromAttr, h]
  split_ifs <;> rfl

theorem getOptionsFromAttr_consumed (o : Options) (doc : Dom) (e : Nat)
    (attr : String) (h : getAttr (doc.attrs e) "data-auto-fragment" = some attr) :
    getAttr (((getOptionsFromAttr o doc e).2).attrs e) "data-auto-fragment" = none := by
  rw [getOptionsFromAttr_doc_some o doc e attr h]
  simp only [removeAttr_attrs, eq_self_iff_true, if_true]
  exact getAttr_removeA_self _ _

theorem getOptionsFromAttr_classes (o : Options) (doc : Dom) (e : Nat) :
    ((getOptionsFromAttr o doc e).2).classes = doc.classes := by
  cases h : getAttr (doc.attrs e) "data-auto-fragment" with
  | none => rw [getOptionsFromAttr_doc_none o doc e h]
  | some attr => rw [getOptionsFromAttr_doc_some o doc e attr h]; rfl

theorem getOptionsFromAttr_childrenIds (o : Options) (doc : Dom) (e : Nat) :
    ((getOptionsFromAttr o doc e).2).childrenIds = doc.childrenIds := by
  cases h : getAttr (doc.attrs e) "data-auto-fragment" with
  | none => rw [getOptionsFromAttr_doc_none o doc e h]
  | some attr => rw [getOptionsFromAttr_doc_some o doc e attr h]; rfl

theorem getOptionsFromAttr_nodeName (o : Options) (doc : Dom) (e : Nat) :
    ((getOptionsFromAttr o doc e).2).nodeName = doc.nodeName := by
  cases h : getAttr (doc.attrs e) "data-auto-fragment" with
  | none => rw [getOptionsFromAttr_doc_none o doc e h]
  | some attr => rw [getOptionsFromAttr_doc_some o doc e attr h]; rfl

theorem getOptionsFromAttr_allIds (o : Options) (doc : Dom) (e : Nat) :
    ((getOptionsFromAttr o doc e).2).allIds = doc.allIds := by
  cases h : getAttr (doc.attrs e) "data-auto-fragment" with
  | none => rw [getOptionsFromAttr_doc_none o doc e h]
  | some attr => rw [getOptionsFromAttr_doc_some o doc e attr h]; rfl

theorem getOptionsFromAttr_attrs_other (o : Options) (doc : Dom) (e x : Nat)
    (key : String) (hkey : key ≠ "data-auto-fragment") :
    getAttr (((getOptionsFromAttr o doc e).2).attrs x) key
      = getAttr (doc.attrs x) key := by
  cases h : getAttr (doc.attrs e) "data-auto-fragment" with
  | none => rw [getOptionsFromAttr_doc_none o doc e h]
  | some attr =>
    rw [getOptionsFromAttr_doc_some o doc e attr h]
    simp only [removeAttr_attrs]
    by_cases hxe : x = e
    · rw [if_pos hxe, getAttr_removeA_ne hkey]
    · rw [if_neg hxe]

theorem getContentElements_opts (o : Options) (doc : Dom) (e slide : Nat) :
    getContentElements ((getOptionsFromAttr o doc e).2) slide
      = getContentElements doc slide := by
  cases h : getAttr (doc.attrs e) "data-auto-fragment" with
  | none => rw [getOptionsFromAttr_doc_none o doc e h]
  | some attr => rw [getOptionsFromAttr_doc_some o doc e attr h]; rfl

/-! Lemmas about the content-element selection. -/

theorem enumFrom_filter_snd (doc : Dom) :
    ∀ (l : List Nat) (k : Nat),
      (((l.enumFrom (k + 1)).filter
        (fun p => !(p.1 == 0 && isHeading doc p.2) && !isPresenterNotes doc p.2)).map
        Prod.snd)
      = l.filter (fun c => !isPresenterNotes doc c) := by
  intro l
  induction l with
  | nil => intro k; rfl
  | cons c rest ih =>
    intro k
    have hk : ((k + 1 : Nat) == 0) = false := by simp
    show (((k + 1, c) :: rest.enumFrom (k + 1 + 1)).filter
        (fun p => !(p.1 == 0 && isHeading doc p.2) && !isPresenterNotes doc p.2)).map
        Prod.snd
      = (c :: rest).filter (fun c => !isPresenterNotes doc c)
    rw [List.filter_cons, List.filter_cons]
    have hpred : (!((k + 1 : Nat) == 0 && isHeading doc c)
        && !isPresenterNotes doc c) = !isPresenterNotes doc c := by
      rw [hk]
      simp
    rw [hpred]
    cases hb : isPresenterNotes doc c with
    | true =>
      rw [Bool.not_true]
      rw [if_neg (by simp), if_neg (by simp)]
      exact ih (k + 1)
    | false =>
      rw [Bool.not_false]
      rw [if_pos rfl, if_pos rfl, List.map_cons, ih (k + 1)]

theorem notes_not_in_content (doc : Dom) (slide c : Nat)
    (h : isPresenterNotes doc c = true) : c ∉ getContentElements doc slide := by
  unfold getContentElements
  cases hcl : doc.childrenIds slide with
  | nil => simp
  | cons c0 rest =>
    intro hc
    have := (List.mem_filter.mp hc).2
    rw [h] at this
    simp at this

/-! Lemmas about `processSlide` and the whole pass. -/

theorem DocLike_refl (doc : Dom) : DocLike doc doc :=
  ⟨rfl, rfl, rfl, rfl, fun _ _ _ => rfl⟩

theorem DocLike_opts (doc d : Dom) (o : Options) (e : Nat)
    (h : DocLike doc d) : DocLike doc (getOptionsFromAttr o d e).2 := by
  obtain ⟨h1, h2, h3, h4, h5⟩ := h
  refine ⟨?_, ?_, ?_, ?_, fun x key hkey => ?_⟩
  · rw [getOptionsFromAttr_classes, h1]
  · rw [getOptionsFromAttr_childrenIds, h2]
  · rw [getOptionsFromAttr_nodeName, h3]
  · rw [getOptionsFromAttr_allIds, h4]
  · rw [getOptionsFromAttr_attrs_other _ _ _ _ _ hkey, h5 x key hkey]

theorem getContentElements_congr (doc d : Dom)
    (hc : d.classes = doc.classes) (hch : d.childrenIds = doc.childrenIds)
    (hn : d.nodeName = doc.nodeName) :
    ∀ s2 : Nat, getContentElements d s2 = getContentElements doc s2 := by
  intro s2
  unfold getContentElements isHeading isPresenterNotes
  rw [hc, hch, hn]

theorem resolveOptions_doclike (doc : Dom) (g : Options) (slide : Nat) :
    DocLike doc (resolveOptions doc g slide).2 := by
  simp only [resolveOptions]
  split_ifs <;>
    first
      | exact DocLike_opts _ _ _ _ (DocLike_opts _ _ _ _ (DocLike_refl doc))
      | exact DocLike_opts _ _ _ _ (DocLike_refl doc)

theorem applyAuto_frame (doc : Dom) (p : Options × Dom) (slide fuel x : Nat)
    (hcls : p.2.classes = doc.classes)
    (hattr : getAttr (p.2.attrs x) "data-fragment-index"
      = getAttr (doc.attrs x) "data-fragment-index")
    (hce : getContentElements p.2 slide = getContentElements doc slide)
    (hx : x ∉ getContentElements doc slide)
    (hlen : (getContentElements doc slide).length ≠ 1) :
    (applyAuto p slide fuel).classes x = doc.classes x
    ∧ getAttr ((applyAuto p slide fuel).attrs x) "data-fragment-index"
        = getAttr (doc.attrs x) "data-fragment-index" := by
  unfold applyAuto
  split_ifs
  · exact ⟨by rw [hcls], hattr⟩
  · rw [hce, descend_of_ne_one _ _ _ hlen]
    show (if (getContentElements doc slide).length > 1
        then addFragment p.2 (getContentElements doc slide) p.1 fuel
        else p.2).classes x = doc.classes x
      ∧ getAttr ((if (getContentElements doc slide).length > 1
          then addFragment p.2 (getContentElements doc slide) p.1 fuel
          else p.2).attrs x) "data-fragment-index"
        = getAttr (doc.attrs x) "data-fragment-index"
    split_ifs
    · obtain ⟨hfc, hfa⟩ := addFragment_classes_frame p.2
        (getContentElements doc slide) p.1 fuel x hx
      refine ⟨by rw [hfc, hcls], ?_⟩
      rw [hfa]
      exact hattr
    · exact ⟨by rw [hcls], hattr⟩

theorem processSlide_frame (doc : Dom) (g : Options) (slide : Nat)
    (fuel : Nat) (x : Nat)
    (hx : x ∉ getContentElements doc slide)
    (hlen : (getContentElements doc slide).length ≠ 1) :
    (processSlide doc g slide fuel).classes x = doc.classes x
    ∧ getAttr ((processSlide doc g slide fuel).attrs x) "data-fragment-index"
        = getAttr (doc.attrs x) "data-fragment-index" := by
  have hne : ("data-fragment-index" : String) ≠ "data-auto-fragment" := by decide
  obtain ⟨hc, hch, hn, _, hao⟩ := resolveOptions_doclike doc g slide
  exact applyAuto_frame doc (resolveOptions doc g slide) slide fuel x
    (by rw [hc]) (hao x _ hne) (getContentElements_congr doc _ hc hch hn slide)
    hx hlen

theorem processSlide_clean (d : Dom) (g : Options) (s : Nat) (fuel : Nat)
    (hcl : ∀ i, getAttr (d.attrs i) "data-auto-fragment" = none)
    (hdis : g.enabled = false) : processSlide d g s fuel = d := by
  have ho : (if (d.classes s).contains "title-slide"
      then { g with enabled := false } else g).enabled = false := by
    split_ifs <;> simp [hdis]
  have hres : resolveOptions d g s
      = (if (d.classes s).contains "title-slide"
         then { g with enabled := false } else g, d) := by
    simp only [resolveOptions]
    rw [getOptionsFromAttr_doc_none _ _ _ (hcl s)]
    split_ifs
    · exact getOptionsFromAttr_doc_none _ _ _ (hcl _)
    · rfl
    · exact getOptionsFromAttr_doc_none _ _ _ (hcl _)
    · rfl
  unfold processSlide applyAuto
  rw [hres]
  show (if (!(if (d.classes s).contains "title-slide" = true
      then { g with enabled := false } else g).enabled) = true then d else _) = d
  rw [ho]
  simp

theorem initPass_clean (doc : Dom) (g : Options) (slides : List Nat)
    (fuel : Nat)
    (hclean : ∀ i, getAttr (doc.attrs i) "data-auto-fragment" = none)
    (hdis : g.enabled = false) : initPass doc g slides fuel = doc := by
  simp only [initPass]
  have hfold : slides.foldl (fun d s => processSlide d g s fuel) doc = doc := by
    induction slides with
    | nil => rfl
    | cons s rest ih =>
      rw [List.foldl_cons, processSlide_clean doc g s fuel hclean hdis]
      exact ih
  rw [hfold]
  have hmark : doc.allIds.filter
      (fun e => (getAttr (doc.attrs e) "data-auto-fragment").isSome) = [] := by
    apply List.filter_eq_nil_iff.mpr
    intro e _
    simp [hclean e]
  rw [hmark]
  rfl

/-! Claim theorems. -/

/-- C4: for every slide element, `getContentElements` returns exactly the
slide's direct children in document order, excluding the first child iff
it is a heading (a heading at a later position is kept) and excluding a
presenter-notes aside at any position. -/
theorem getContentElements_eq_spec (doc : Dom) (slide : Nat) :
    getContentElements doc slide = specContentElements doc slide := by
  unfold getContentElements specContentElements
  cases hcl : doc.childrenIds slide with
  | nil => rfl
  | cons c0 rest =>
    show (if isHeading doc c0 then rest else c0 :: rest).filter
        (fun c => !isPresenterNotes doc c)
      = (((c0 :: rest).enum).filter
          (fun p => !(p.1 == 0 && isHeading doc p.2) && !isPresenterNotes doc p.2)).map
          Prod.snd
    have hrest : ((rest.enumFrom 1).filter
        (fun p => !(p.1 == 0 && isHeading doc p.2) && !isPresenterNotes doc p.2)).map
        Prod.snd
      = rest.filter (fun c => !isPresenterNotes doc c) := by
      simpa using enumFrom_filter_snd doc rest 0
    rw [show (c0 :: rest).enum = (0, c0) :: rest.enumFrom 1 from rfl,
      List.filter_cons]
    by_cases hh : isHeading doc c0 = true
    · rw [if_pos hh]
      have hcond : (!((0 : Nat) == 0 && isHeading doc c0)
          && !isPresenterNotes doc c0) = false := by
        rw [hh]
        simp
      rw [hcond, if_neg (by simp)]
      exact hrest.symm
    · rw [if_neg hh]
      have hh' : isHeading doc c0 = false := by
        cases hb : isHeading doc c0
        · rfl
        · exact absurd hb hh
      have hcond : (!((0 : Nat) == 0 && isHeading doc c0)
          && !isPresenterNotes doc c0) = !isPresenterNotes doc c0 := by
        rw [hh']
        simp
      rw [hcond, List.filter_cons]
      cases hb : isPresenterNotes doc c0 with
      | true =>
        rw [Bool.not_true, if_neg (by simp), if_neg (by simp)]
        exact hrest.symm
      | false =>
        rw [Bool.not_false, if_pos rfl, if_pos rfl, List.map_cons, hrest]

/-- C1: for a duplicate-free element list handed to `addFragment` with
integer skip `s`, effective base `b` (after any relative-base
adjustment) and integer step `k`, the element at 1-based position `i`
ends up carrying the fragment tag iff `i > s` or it carried it before;
a missing index attribute is set to `b + (i-1)*k`, and an existing index
attribute is never overwritten. -/
theorem addFragment_tag_and_index (doc : Dom) (elements : List Nat)
    (o : Options) (fuel : Nat) (s b k : Int) (i : Nat) (x : Nat)
    (hnd : elements.Nodup) (hs : o.skip = some s)
    (hb : effectiveStart doc elements o fuel = some b)
    (hk : o.indexStep = some k) (hi : 1 ≤ i)
    (hx : elements.get? (i - 1) = some x) :
    (((addFragment doc elements o fuel).classes x).contains "fragment" = true
       ↔ (s < (i : Int) ∨ (doc.classes x).contains "fragment" = true))
    ∧ (getAttr (doc.attrs x) "data-fragment-index" = none →
         getAttr ((addFragment doc elements o fuel).attrs x) "data-fragment-index"
           = some (toString (b + ((i : Int) - 1) * k)))
    ∧ (∀ v, getAttr (doc.attrs x) "data-fragment-index" = some v →
         getAttr ((addFragment doc elements o fuel).attrs x) "data-fragment-index"
           = some v) := by
  have hlen : ¬ elements.length = 0 := by
    intro h0
    rw [List.length_eq_zero] at h0
    subst h0
    simp at hx
  have hspec := assignLoop_spec o.skip (effectiveStart doc elements o fuel)
    o.indexStep elements doc 1 (i - 1) x hnd hx
  unfold LoopSpec at hspec
  unfold addFragment
  rw [if_neg hlen]
  rw [hs, hb, hk] at hspec ⊢
  have hcnt : 1 + (i - 1) = i := by omega
  rw [hcnt] at hspec
  obtain ⟨t1, t2, t3⟩ := hspec
  refine ⟨?_, ?_, t3⟩
  · simp only [jsGtNat, decide_eq_true_eq] at t1
    exact t1
  · intro hnone
    have hval := t2 hnone
    rw [hval]
    have hcast : ((i - 1 : Nat) : Int) = (i : Int) - 1 := by omega
    simp [jsAdd, jsMul, jsToString, hcast]

/-- C1 witness: in `domPlain` with globally enabled default options, the
element at position 2 already carries the tag and index `"7"`; the
theorem applies with `s = 0`, `b = 10`, `k = 10`. -/
theorem addFragment_tag_and_index_witness :
    ([1, 2] : List Nat).Nodup
    ∧ ((((addFragment domPlain [1, 2] enabledOptions 5).classes 2).contains
          "fragment" = true
        ↔ ((0 : Int) < (2 : Int)
           ∨ (domPlain.classes 2).contains "fragment" = true))
       ∧ (getAttr (domPlain.attrs 2) "data-fragment-index" = none →
            getAttr ((addFragment domPlain [1, 2] enabledOptions 5).attrs 2)
              "data-fragment-index"
              = some (toString ((10 : Int) + ((2 : Int) - 1) * 10)))
       ∧ (∀ v, getAttr (domPlain.attrs 2) "data-fragment-index" = some v →
            getAttr ((addFragment domPlain [1, 2] enabledOptions 5).attrs 2)
              "data-fragment-index" = some v)) :=
  ⟨by decide,
   addFragment_tag_and_index domPlain [1, 2] enabledOptions 5 0 10 10 2 2
     (by decide) rfl rfl rfl (by decide) rfl⟩

/-- C10: `addFragment` never changes the tree structure, node names or
id enumeration; elements outside the given list keep their classes and
attributes (in particular the ancestors read by the `initRelative` walk);
on any element it at most adds the class `fragment` and writes only the
`data-fragment-index` attribute, never removing a class or attribute and
never overwriting an existing index. -/
theorem addFragment_frame_spec (doc : Dom) (elements : List Nat)
    (o : Options) (fuel : Nat) (x : Nat) :
    (addFragment doc elements o fuel).nodeName = doc.nodeName
    ∧ (addFragment doc elements o fuel).parent = doc.parent
    ∧ (addFragment doc elements o fuel).childrenIds = doc.childrenIds
    ∧ (addFragment doc elements o fuel).allIds = doc.allIds
    ∧ (x ∉ elements →
        (addFragment doc elements o fuel).classes x = doc.classes x
        ∧ (addFragment doc elements o fuel).attrs x = doc.attrs x)
    ∧ (∀ c, c ∈ doc.classes x → c ∈ (addFragment doc elements o fuel).classes x)
    ∧ (∀ c, c ∈ (addFragment doc elements o fuel).classes x →
        c ∈ doc.classes x ∨ c = "fragment")
    ∧ (∀ key, key ≠ "data-fragment-index" →
        getAttr ((addFragment doc elements o fuel).attrs x) key
          = getAttr (doc.attrs x) key)
    ∧ (∀ v, getAttr (doc.attrs x) "data-fragment-index" = some v →
        getAttr ((addFragment doc elements o fuel).attrs x) "data-fragment-index"
          = some v) := by
  unfold addFragment
  split_ifs
  · exact ⟨rfl, rfl, rfl, rfl, fun _ => ⟨rfl, rfl⟩, fun c hc => hc,
      fun c hc => Or.inl hc, fun _ _ => rfl, fun v hv => hv⟩
  · obtain ⟨s1, s2, s3, s4⟩ := assignLoop_struct o.skip
      (effectiveStart doc elements o fuel) o.indexStep elements doc 1
    exact ⟨s1, s2, s3, s4,
      fun hx => assignLoop_frame _ _ _ elements doc 1 x hx,
      fun c hc => assignLoop_classes_mono _ _ _ elements doc 1 x c hc,
      fun c hc => assignLoop_classes_sub _ _ _ elements doc 1 x c hc,
      fun key hkey => assignLoop_attrs_other _ _ _ elements doc 1 x key hkey,
      fun v hv => assignLoop_attrs_kept _ _ _ elements doc 1 x v hv⟩

/-- C10 witness: the bystander element 9 of `domPlain` is untouched by a
run of `addFragment` over elements 1 and 2. -/
theorem addFragment_frame_spec_witness :
    (9 ∉ ([1, 2] : List Nat))
    ∧ (addFragment domPlain [1, 2] enabledOptions 5).classes 9
        = domPlain.classes 9 :=
  ⟨by decide,
   ((addFragment_frame_spec domPlain [1, 2] enabledOptions 5 9).2.2.2.2.1
     (by decide)).1⟩

/-- C2: with `initRelative` and a nonempty element list, the effective
base used by `addFragment` equals `indexStart` plus the parsed index of
the nearest strict ancestor carrying `data-fragment-index` (the walk
stopping at the `slides` container boundary), and equals `indexStart`
unmodified when no such ancestor exists within the boundary. -/
theorem effectiveStart_relative (doc : Dom) (o : Options) (e0 : Nat)
    (rest : List Nat) (fuel : Nat) (chain : List Nat)
    (hrel : o.initRelative = true)
    (hch : IsAncChain doc e0 chain) (hf : chain.length < fuel) :
    (∀ a v, nearestIndexedAncestor doc e0 chain = some a →
        getAttr (doc.attrs a) "data-fragment-index" = some v →
        effectiveStart doc (e0 :: rest) o fuel
          = jsAdd o.indexStart (parseIntJs v))
    ∧ (nearestIndexedAncestor doc e0 chain = none →
        effectiveStart doc (e0 :: rest) o fuel = o.indexStart) := by
  obtain ⟨w1, w2⟩ := walkUp_spec doc chain e0 fuel hch hf
  constructor
  · intro a v ha hv
    have hw := w1 a ha v hv
    unfold effectiveStart
    rw [if_pos hrel]
    show (match walkUp doc e0 fuel with
          | WalkResult.found v => jsAdd o.indexStart (parseIntJs v)
          | _ => o.indexStart) = jsAdd o.indexStart (parseIntJs v)
    rw [hw]
  · intro hn
    have hw := w2 hn
    unfold effectiveStart
    rw [if_pos hrel]
    show (match walkUp doc e0 fuel with
          | WalkResult.found v => jsAdd o.indexStart (parseIntJs v)
          | _ => o.indexStart) = o.indexStart
    rw [hw]

/-- C2 witness: the spec's own example — `indexStart = 5` below an
ancestor carrying index `"20"` inside the `slides` container yields
effective base `25`. -/
theorem effectiveStart_relative_witness :
    IsAncChain domRel 0 [1, 2]
    ∧ effectiveStart domRel [0] relOptions 3 = some 25 := by
  have hch : IsAncChain domRel 0 [1, 2] := ⟨rfl, rfl, rfl⟩
  refine ⟨hch, ?_⟩
  have h := (effectiveStart_relative domRel relOptions 0 [] 3 [1, 2] rfl hch
    (by decide)).1 1 "20" (by decide) (by decide)
  rw [h]
  decide

/-- C9: on any document admitting a height function (every child lower
than its parent, as in a finite DOM tree), the singleton descent of
`processSlide` ends after finitely many steps in a list with zero or
more than one elements, and that list is the one handed (or not) to the
assigner. -/
theorem singleton_descent_terminates (doc : Dom) (h : Nat → Nat)
    (hwf : ∀ i c, c ∈ doc.childrenIds i → h c < h i) (l : List Nat) :
    ∃ fuel r, descend doc l fuel = some r ∧ r.length ≠ 1 :=
  descend_total doc h hwf l

/-- C9 witness: a two-deep singleton wrapper chain in `domChain`
descends to the two-element level. -/
theorem singleton_descent_terminates_witness :
    (∀ i c, c ∈ domChain.childrenIds i → chainHeight c < chainHeight i)
    ∧ ∃ fuel r, descend domChain [0] fuel = some r ∧ r.length ≠ 1 := by
  have hwf : ∀ i c, c ∈ domChain.childrenIds i → chainHeight c < chainHeight i := by
    intro i c hc
    simp only [domChain] at hc
    split_ifs at hc with h0 h1 h2
    · subst h0
      simp at hc
      subst hc
      decide
    · subst h1
      simp at hc
      subst hc
      decide
    · subst h2
      simp at hc
      rcases hc with rfl | rfl <;> decide
    · simp at hc
  exact ⟨hwf, singleton_descent_terminates domChain chainHeight hwf [0]⟩

/-- C6: the failing input — a slide whose marker is `"0,x"` (field 2 not
an integer) makes the pass write the literal `"NaN"` into the
`data-fragment-index` attribute of its first content element, refuting
the requirement that no NaN-like value ever reaches an index
attribute. -/
theorem nan_index_written :
    getAttr (domNaN.attrs 0) "data-auto-fragment" = some "0,x"
    ∧ getAttr ((processSlide domNaN defaultOptions 0 5).attrs 1)
        "data-fragment-index" = some "NaN" := by
  constructor <;> decide

/-- C7: the failing input — in the deck-wide sweep, an element whose
marker is exactly `"false"` resolves to `enabled = false`, yet the
assigner is still invoked on its two children and tags them. -/
theorem sweep_invokes_disabled :
    (getOptionsFromAttr defaultOptions domFalse 0).1.enabled = false
    ∧ ((initPass domFalse defaultOptions [10] 5).classes 1).contains
        "fragment" = true := by
  constructor <;> decide

/-- C5 counterexample: a presenter-notes aside inside a singleton
wrapper is reached by the descent, and the whole pass adds the fragment
tag to it — refuting the claim that a notes aside among the children of
any processed scope is never tagged. -/
theorem notes_aside_tagged_cex :
    isPresenterNotes domNotes 1 = true
    ∧ ((initPass domNotes defaultOptions [0] 5).classes 1).contains
        "fragment" = true := by
  constructor <;> decide

/-- C5 amended: a presenter-notes aside among a slide's direct children
is never selected as content; and whenever the selected content list is
not a singleton (so no descent occurs), `processSlide` leaves the
aside's fragment tag and fragment-index attribute unchanged.  Scopes
reached through singleton descent or through the deck-wide sweep are
not filtered, as the counterexample shows. -/
theorem notes_excluded_amended (doc : Dom) (g : Options)
    (slide c fuel : Nat)
    (h1 : isPresenterNotes doc c = true)
    (h2 : (getContentElements doc slide).length ≠ 1) :
    c ∉ getContentElements doc slide
    ∧ (processSlide doc g slide fuel).classes c = doc.classes c
    ∧ getAttr ((processSlide doc g slide fuel).attrs c) "data-fragment-index"
        = getAttr (doc.attrs c) "data-fragment-index" := by
  have hnin := notes_not_in_content doc slide c h1
  obtain ⟨hc, ha⟩ := processSlide_frame doc g slide fuel c hnin h2
  exact ⟨hnin, hc, ha⟩

/-- C5 amended witness: the notes aside 1 sitting first among the three
children of the slide in `domNotesFlat` stays untouched. -/
theorem notes_excluded_amended_witness :
    (isPresenterNotes domNotesFlat 1 = true
      ∧ (getContentElements domNotesFlat 0).length ≠ 1)
    ∧ (1 ∉ getContentElements domNotesFlat 0
       ∧ (processSlide domNotesFlat defaultOptions 0 5).classes 1
           = domNotesFlat.classes 1
       ∧ getAttr ((processSlide domNotesFlat defaultOptions 0 5).attrs 1)
           "data-fragment-index"
           = getAttr (domNotesFlat.attrs 1) "data-fragment-index") :=
  ⟨⟨by decide, by decide⟩,
   notes_excluded_amended domNotesFlat defaultOptions 0 1 5 (by decide)
     (by decide)⟩

/-- C8 counterexample: a slide marker `"1"` raises skip above the
globally enabled configuration's skip 0; the first pass leaves element 1
untagged, and a second pass over the stripped deck tags it — the second
pass is not a no-op. -/
theorem second_pass_changes_cex :
    ((initPass domSkip enabledOptions [0] 5).classes 1).contains
        "fragment" = false
    ∧ ((initPass (initPass domSkip enabledOptions [0] 5) enabledOptions
          [0] 5).classes 1).contains "fragment" = true := by
  constructor <;> decide

/-- C8 amended: a marker attribute that is read is always removed from
its element; and when the global configuration leaves auto-fragment
disabled, rerunning the whole pass on a deck with no marker attributes
left changes nothing.  Under an enabling global configuration a second
pass may add fragment tags to elements a larger marker-specified skip
had left untagged, as the counterexample shows. -/
theorem marker_consumed_amended (o : Options) (doc : Dom) (e : Nat)
    (attr : String) (doc2 : Dom) (g : Options) (slides : List Nat)
    (fuel : Nat)
    (hread : getAttr (doc.attrs e) "data-auto-fragment" = some attr)
    (hclean : ∀ i, getAttr (doc2.attrs i) "data-auto-fragment" = none)
    (hdis : g.enabled = false) :
    getAttr (((getOptionsFromAttr o doc e).2).attrs e) "data-auto-fragment"
      = none
    ∧ initPass doc2 g slides fuel = doc2 :=
  ⟨getOptionsFromAttr_consumed o doc e attr hread,
   initPass_clean doc2 g slides fuel hclean hdis⟩

/-- C8 amended witness: the marker of `domParse` is consumed, and the
attribute-free `domClean` is a fixed point of the disabled pass. -/
theorem marker_consumed_amended_witness :
    getAttr (((getOptionsFromAttr defaultOptions domParse 0).2).attrs 0)
      "data-auto-fragment" = none
    ∧ initPass domClean defaultOptions [0] 5 = domClean :=
  marker_consumed_amended defaultOptions domParse 0 "2,+5,3" domClean
    defaultOptions [0] 5 (by decide) (fun i => rfl) rfl

/-- C3: parsing a present marker attribute enables the scope except for
the exact string `"false"`; the empty string and `"false"` change no
other field; any other value is split on commas with trimmed fields, a
non-empty field 1 setting `skip`, a non-empty field 2 setting
`initRelative` (iff its first character is `'+'`) and `indexStart`, a
non-empty field 3 setting `indexStep`, and empty fields leaving the
configuration unchanged. -/
theorem getOptionsFromAttr_parses (o : Options) (doc : Dom) (e : Nat)
    (attr : String)
    (h : getAttr (doc.attrs e) "data-auto-fragment" = some attr) :
    ParsesAs o attr (getOptionsFromAttr o doc e).1 := by
  unfold ParsesAs trimmedField
  simp only [getOptionsFromAttr, h]
  by_cases h0 : attr = ""
  · subst h0
    rw [if_pos rfl]
    exact ⟨iff_of_true rfl (by decide), fun _ => rfl,
      fun hc => absurd hc (by decide), fun hne => absurd rfl hne⟩
  · by_cases h1 : attr = "false"
    · subst h1
      rw [if_neg h0, if_pos rfl]
      exact ⟨iff_of_false (by simp) (fun hc => hc rfl),
        fun hc => absurd hc (by decide), fun _ => rfl,
        fun _ hne => absurd rfl hne⟩
    · rw [if_neg h0, if_neg h1]
      refine ⟨?_, fun hc => absurd hc h0, fun hc => absurd hc h1,
        fun _ _ => ⟨?_, ?_, ?_, ?_⟩⟩
      · split_ifs <;> exact iff_of_true rfl h1
      · split_ifs <;> rfl
      · split_ifs <;> rfl
      · split_ifs <;> rfl
      · split_ifs <;> rfl

/-- C3 witness: the directive `"2,+5,3"` parses to `skip = 2`,
`initRelative = true`, `indexStart = 5`, `indexStep = 3`. -/
theorem getOptionsFromAttr_parses_witness :
    getAttr (domParse.attrs 0) "data-auto-fragment" = some "2,+5,3"
    ∧ ParsesAs defaultOptions "2,+5,3"
        (getOptionsFromAttr defaultOptions domParse 0).1 :=
  ⟨by decide,
   getOptionsFromAttr_parses defaultOptions domParse 0 "2,+5,3" (by decide)⟩

end AutoFragment
